import Mathlib

/-!
Verification of the stock_analyser grouped alert pipeline.

Shallow embedding of the statistical core of `src/app.py` and
`src/streamlit_stock_app.py` (the two variants of the Streamlit NSE stock
analyser).  Records are rows of the normalised DataFrame; prices, volumes
and the two slider thresholds are embedded as rationals (the Python floats
carry exact decimal data in all relevant computations); the pandas `NaN`
produced by `Series.std()` on groups with fewer than two rows is embedded
as `Option` (`none` = NaN), with the float rule "every comparison against
NaN is False" built into the alert definition.  `Real.sqrt` gives the
standard deviation its mathematical meaning; a decidable characterisation
(`priceAlertB`) makes the whole pipeline executable.
-/

namespace StockAnalyser

/-- A row of the normalised DataFrame (columns Date, ISIN, Ticker, Price,
Volume after the rename in `load_all_csvs_from_github`). -/
structure MarketRecord where
  security_id : String
  symbol : String
  date : ℤ
  price : ℚ
  volume : ℚ
deriving DecidableEq, Repr

/-- Embeds `Series.mean()`: arithmetic mean (groups are never empty when this is
used; on `[]` Lean's `0 / 0 = 0` convention applies). -/
def mean (l : List ℚ) : ℚ := l.sum / l.length

/-- The n−1 (sample, pandas default `ddof=1`) variance: sum of squared
deviations from the mean divided by `n − 1`. -/
def sampleVar (l : List ℚ) : ℚ :=
  ((l.map (fun x => (x - mean l) ^ 2)).sum) / ((l.length : ℚ) - 1)

/-- Embeds `Series.std()` squared, with pandas NaN semantics: NaN (`none`) when the
series has fewer than two entries, otherwise the sample variance.  The
standard deviation itself is `Real.sqrt` of this value. -/
def sampleVar? (l : List ℚ) : Option ℚ :=
  if 2 ≤ l.length then some (sampleVar l) else none

/-- Embeds `abs(group['Price'] - price_mean) > (std_threshold * price_std)` for one
row: the price-alert condition of app.py line 104 / streamlit line 84.
`price_std` is `Real.sqrt` of the sample variance; when it is NaN (`none`)
the float comparison is False. -/
def Price_Alert (k : ℚ) (prices : List ℚ) (p : ℚ) : Prop :=
  match sampleVar? prices with
  | none => False
  | some v => |(p : ℝ) - (mean prices : ℝ)| > (k : ℝ) * Real.sqrt (v : ℝ)

/-- Decidable characterisation of `Price_Alert` (equivalence proved in
`Price_Alert_iff_priceAlertB`). -/
def priceAlertB (k : ℚ) (prices : List ℚ) (p : ℚ) : Bool :=
  match sampleVar? prices with
  | none => false
  | some v =>
    if k < 0 then decide (p ≠ mean prices ∨ v ≠ 0)
    else decide (k ^ 2 * v < (p - mean prices) ^ 2)

/-- Embeds `group['Volume'] > (vol_multiplier * vol_mean)` for one row: the
volume-spike condition of app.py line 105 / streamlit line 85.  No standard
deviation and no division is involved, so this is pure rational
arithmetic. -/
def Volume_Spike (m : ℚ) (vols : List ℚ) (v : ℚ) : Prop :=
  v > m * mean vols

instance (m : ℚ) (vols : List ℚ) (v : ℚ) : Decidable (Volume_Spike m vols v) :=
  inferInstanceAs (Decidable (_ > _))

lemma sampleVar_nonneg (l : List ℚ) (h : 2 ≤ l.length) : 0 ≤ sampleVar l := by
  unfold sampleVar
  apply div_nonneg
  · apply List.sum_nonneg
    intro x hx
    obtain ⟨y, _, rfl⟩ := List.mem_map.mp hx
    positivity
  · have : (2 : ℚ) ≤ (l.length : ℚ) := by exact_mod_cast h
    linarith

lemma Price_Alert_iff_priceAlertB (k : ℚ) (prices : List ℚ) (p : ℚ) :
    Price_Alert k prices p ↔ priceAlertB k prices p = true := by
  unfold Price_Alert priceAlertB
  unfold sampleVar?
  by_cases h : 2 ≤ prices.length
  · simp only [h, if_true]
    have hv : (0 : ℝ) ≤ (sampleVar prices : ℝ) := by
      exact_mod_cast sampleVar_nonneg prices h
    set v : ℚ := sampleVar prices with hvdef
    set x : ℝ := (p : ℝ) - (mean prices : ℝ) with hxdef
    by_cases hk : k < 0
    · simp only [hk, if_true, decide_eq_true_eq]
      constructor
      · intro hgt
        by_contra hcon
        push_neg at hcon
        obtain ⟨hp, hv0⟩ := hcon
        have hx0 : x = 0 := by
          rw [hxdef, hp, sub_self]
        have hs0 : Real.sqrt (v : ℝ) = 0 := by
          rw [hv0]; norm_num
        rw [hx0, hs0, mul_zero, abs_zero] at hgt
        exact lt_irrefl 0 hgt
      · intro hor
        have hks : (k : ℝ) < 0 := by exact_mod_cast hk
        rcases eq_or_lt_of_le hv with hv0 | hvpos
        · -- variance is zero, so p ≠ mean
          have hvq : v = 0 := by exact_mod_cast hv0.symm
          have hp : p ≠ mean prices := by
            rcases hor with h1 | h2
            · exact h1
            · exact absurd hvq h2
          have hx0 : x ≠ 0 := by
            simp only [hxdef, sub_ne_zero]
            exact_mod_cast hp
          have : Real.sqrt (v : ℝ) = 0 := by
            rw [← hv0]; exact Real.sqrt_zero
          rw [this, mul_zero]
          exact abs_pos.mpr hx0
        · have : 0 < Real.sqrt (v : ℝ) := Real.sqrt_pos.mpr hvpos
          have : (k : ℝ) * Real.sqrt (v : ℝ) < 0 := mul_neg_of_neg_of_pos hks this
          exact lt_of_lt_of_le this (abs_nonneg x)
    · simp only [hk, if_false, decide_eq_true_eq]
      push_neg at hk
      have hks : (0 : ℝ) ≤ (k : ℝ) := by exact_mod_cast hk
      have hsq : Real.sqrt (v : ℝ) ^ 2 = (v : ℝ) := Real.sq_sqrt hv
      constructor
      · intro hgt
        have h1 : ((k : ℝ) * Real.sqrt (v : ℝ)) ^ 2 < x ^ 2 := by
          have hnn : 0 ≤ (k : ℝ) * Real.sqrt (v : ℝ) :=
            mul_nonneg hks (Real.sqrt_nonneg _)
          calc ((k : ℝ) * Real.sqrt (v : ℝ)) ^ 2
              < |x| ^ 2 := by
                apply pow_lt_pow_left₀ hgt hnn
                norm_num
            _ = x ^ 2 := sq_abs x
        have h2 : (k : ℝ) ^ 2 * (v : ℝ) < x ^ 2 := by
          calc (k : ℝ) ^ 2 * (v : ℝ) = ((k : ℝ) * Real.sqrt (v : ℝ)) ^ 2 := by
                rw [mul_pow, hsq]
            _ < x ^ 2 := h1
        have : ((k ^ 2 * v : ℚ) : ℝ) < (((p - mean prices) ^ 2 : ℚ) : ℝ) := by
          push_cast
          convert h2 using 1
        exact_mod_cast this
      · intro hlt
        have h2 : (k : ℝ) ^ 2 * (v : ℝ) < x ^ 2 := by
          have : ((k ^ 2 * v : ℚ) : ℝ) < (((p - mean prices) ^ 2 : ℚ) : ℝ) := by
            exact_mod_cast hlt
          push_cast at this
          convert this using 1
        have h1 : ((k : ℝ) * Real.sqrt (v : ℝ)) ^ 2 < |x| ^ 2 := by
          rw [mul_pow, hsq, sq_abs]
          exact h2
        have hnn : 0 ≤ (k : ℝ) * Real.sqrt (v : ℝ) :=
          mul_nonneg hks (Real.sqrt_nonneg _)
        by_contra hcon
        push_neg at hcon
        have : |x| ^ 2 ≤ ((k : ℝ) * Real.sqrt (v : ℝ)) ^ 2 := by
          apply pow_le_pow_left₀ (abs_nonneg x) hcon
        linarith
  · simp [h]

instance (k : ℚ) (prices : List ℚ) (p : ℚ) : Decidable (Price_Alert k prices p) :=
  decidable_of_iff _ (Price_Alert_iff_priceAlertB k prices p).symm

/-- The date-range filter (app.py line 82 / streamlit line 62):
`df[(df['Date'] >= start_date) & (df['Date'] <= end_date)]`, both endpoints
inclusive. -/
def rangeFilter (records : List MarketRecord) (startDate endDate : ℤ) :
    List MarketRecord :=
  records.filter (fun r => decide (startDate ≤ r.date) && decide (r.date ≤ endDate))

/-- Helper for `dedupFirst`: drop every element already in `seen`, record
new elements as seen. -/
def dedupFirstAux {α : Type} [DecidableEq α] (seen : List α) : List α → List α
  | [] => []
  | a :: l =>
    if a ∈ seen then dedupFirstAux seen l else a :: dedupFirstAux (a :: seen) l

/-- First-occurrence deduplication, the semantics of pandas
`drop_duplicates()` (default `keep='first'`) and of the distinct group keys
produced by `groupby`. -/
def dedupFirst {α : Type} [DecidableEq α] (l : List α) : List α :=
  dedupFirstAux [] l

/-- The distinct group keys of `df.groupby('ISIN')`, in the sorted order
pandas iterates them (`sort=True` default). -/
def groupKeys (df : List MarketRecord) : List String :=
  (dedupFirst (df.map (·.security_id))).mergeSort (fun a b => decide (a ≤ b))

/-- Embeds `group.sort_values('Date')` (app.py line 96 / streamlit line 76). -/
def sortByDate (l : List MarketRecord) : List MarketRecord :=
  l.mergeSort (fun a b => decide (a.date ≤ b.date))

/-- The rows of `df.groupby('ISIN')` for one key, sorted by date as the loop
body does first. -/
def groupOf (df : List MarketRecord) (i : String) : List MarketRecord :=
  sortByDate (df.filter (fun r => r.security_id == i))

/-- The `Price_Alert` column entry for row `r` of group `g`. -/
def priceAlertFlag (k : ℚ) (g : List MarketRecord) (r : MarketRecord) : Bool :=
  decide (Price_Alert k (g.map (·.price)) r.price)

/-- The `Volume_Spike` column entry for row `r` of group `g`. -/
def volumeSpikeFlag (m : ℚ) (g : List MarketRecord) (r : MarketRecord) : Bool :=
  decide (Volume_Spike m (g.map (·.volume)) r.volume)

/-- The aggregate results of the group-analysis loop: `buzzing_isins` (a
Python set), the concatenated `alert_df` and `volume_df`. -/
structure Summary where
  buzzing : Finset String
  price_alert_records : List MarketRecord
  volume_spike_records : List MarketRecord
deriving DecidableEq

/-- The whole pipeline of app.py lines 82–115: filter to the date range,
group by ISIN, flag each row against its group's baseline, and aggregate
the buzzing set and the two concatenated flagged-row frames. -/
def analyze (records : List MarketRecord) (startDate endDate : ℤ) (k m : ℚ) :
    Summary :=
  let df := rangeFilter records startDate endDate
  let ks := groupKeys df
  { buzzing :=
      (ks.filter (fun i => (groupOf df i).any (priceAlertFlag k (groupOf df i)))).toFinset
    price_alert_records :=
      ks.flatMap (fun i => (groupOf df i).filter (priceAlertFlag k (groupOf df i)))
    volume_spike_records :=
      ks.flatMap (fun i => (groupOf df i).filter (volumeSpikeFlag m (groupOf df i))) }

/-- Embeds `group['Upper_Band'] = price_mean + std_threshold * price_std` (app.py
line 101): the constant upper band of a group, NaN (`none`) when the group
has fewer than two rows. -/
noncomputable def Upper_Band (k : ℚ) (prices : List ℚ) : Option ℝ :=
  (sampleVar? prices).map (fun v => (mean prices : ℝ) + (k : ℝ) * Real.sqrt (v : ℝ))

/-- Embeds `group['Lower_Band'] = price_mean - std_threshold * price_std` (app.py
line 102). -/
noncomputable def Lower_Band (k : ℚ) (prices : List ℚ) : Option ℝ :=
  (sampleVar? prices).map (fun v => (mean prices : ℝ) - (k : ℝ) * Real.sqrt (v : ℝ))

/-- Python dict lookup for a dict built from an association list: the last
pair with the given key wins (later `dict` insertions overwrite earlier
ones). -/
def dictLookup (pairs : List (String × String)) (i : String) : Option String :=
  ((pairs.filter (fun p => p.1 == i)).map (·.2)).getLast?

/-- Embeds `isin_map` (app.py line 117 / streamlit line 97):
`df[['ISIN','Ticker']].drop_duplicates().set_index('ISIN')['Ticker'].to_dict()`
— deduplicate the (ISIN, Ticker) pairs keeping first occurrences, then build
a dict where for a duplicated ISIN the later of the kept pairs wins. -/
def symbolLookup (df : List MarketRecord) (i : String) : Option String :=
  dictLookup (dedupFirst (df.map (fun r => (r.security_id, r.symbol)))) i

/-- A raw row as read by app.py's `load_all_csvs_from_github` before the
`dropna` of line 44: any of the five normalised columns may be missing
(pandas NaN, embedded as `none`). -/
structure RawRecord where
  security_id : Option String
  symbol : Option String
  date : Option ℤ
  price : Option ℚ
  volume : Option ℚ
deriving DecidableEq, Repr

/-- Embeds `df.dropna(subset=['Date', 'Price', 'Volume'], inplace=True)` (app.py
line 44): keep exactly the rows whose Date, Price and Volume are present.
The ISIN (`security_id`) column is not in the subset.  The streamlit
variant performs no dropna at all. -/
def dropnaLoad (raw : List RawRecord) : List RawRecord :=
  raw.filter (fun r => r.date.isSome && r.price.isSome && r.volume.isSome)

/-- A raw row whose ISIN (`security_id`) is missing but whose Date, Price
and Volume are present. -/
def missingIsinRaw : RawRecord :=
  { security_id := none, symbol := some "T", date := some 0,
    price := some 1, volume := some 10 }

/-- A fully populated raw row. -/
def completeRaw : RawRecord :=
  { security_id := some "I", symbol := some "T", date := some 0,
    price := some 1, volume := some 10 }

namespace Streamlit

/-!  The group-analysis section of `src/streamlit_stock_app.py` (lines
62–97), transcribed separately from that file so that its equivalence with
the `src/app.py` pipeline above is a theorem about two definitions rather
than a definitional alias.  The record type, `dedupFirst` and the `Summary`
shape are shared modelling infrastructure. -/

/-- Streamlit line 62: the inclusive date filter. -/
def rangeFilter (records : List MarketRecord) (startDate endDate : ℤ) :
    List MarketRecord :=
  records.filter (fun r => decide (startDate ≤ r.date) && decide (r.date ≤ endDate))

/-- Streamlit `Series.mean()`. -/
def mean (l : List ℚ) : ℚ := l.sum / l.length

/-- Streamlit sample (ddof = 1) variance. -/
def sampleVar (l : List ℚ) : ℚ :=
  ((l.map (fun x => (x - mean l) ^ 2)).sum) / ((l.length : ℚ) - 1)

/-- Streamlit `Series.std()` squared with NaN as `none` (line 77). -/
def sampleVar? (l : List ℚ) : Option ℚ :=
  if 2 ≤ l.length then some (sampleVar l) else none

/-- Streamlit line 84: `abs(group['Price'] - price_mean) > (std_threshold *
price_std)`. -/
def Price_Alert (k : ℚ) (prices : List ℚ) (p : ℚ) : Prop :=
  match sampleVar? prices with
  | none => False
  | some v => |(p : ℝ) - (mean prices : ℝ)| > (k : ℝ) * Real.sqrt (v : ℝ)

instance (k : ℚ) (prices : List ℚ) (p : ℚ) : Decidable (Price_Alert k prices p) :=
  inferInstanceAs (Decidable (StockAnalyser.Price_Alert k prices p))

/-- Streamlit line 85: `group['Volume'] > (vol_multiplier * vol_mean)`. -/
def Volume_Spike (m : ℚ) (vols : List ℚ) (v : ℚ) : Prop :=
  v > m * mean vols

instance (m : ℚ) (vols : List ℚ) (v : ℚ) : Decidable (Volume_Spike m vols v) :=
  inferInstanceAs (Decidable (_ > _))

/-- Streamlit line 81. -/
noncomputable def Upper_Band (k : ℚ) (prices : List ℚ) : Option ℝ :=
  (sampleVar? prices).map (fun v => (mean prices : ℝ) + (k : ℝ) * Real.sqrt (v : ℝ))

/-- Streamlit line 82. -/
noncomputable def Lower_Band (k : ℚ) (prices : List ℚ) : Option ℝ :=
  (sampleVar? prices).map (fun v => (mean prices : ℝ) - (k : ℝ) * Real.sqrt (v : ℝ))

/-- Streamlit line 75: the groupby keys. -/
def groupKeys (df : List MarketRecord) : List String :=
  (dedupFirst (df.map (·.security_id))).mergeSort (fun a b => decide (a ≤ b))

/-- Streamlit line 76: `group.sort_values('Date')`. -/
def sortByDate (l : List MarketRecord) : List MarketRecord :=
  l.mergeSort (fun a b => decide (a.date ≤ b.date))

/-- Streamlit: one groupby group, date-sorted. -/
def groupOf (df : List MarketRecord) (i : String) : List MarketRecord :=
  sortByDate (df.filter (fun r => r.security_id == i))

/-- Streamlit `Price_Alert` column entry. -/
def priceAlertFlag (k : ℚ) (g : List MarketRecord) (r : MarketRecord) : Bool :=
  decide (Price_Alert k (g.map (·.price)) r.price)

/-- Streamlit `Volume_Spike` column entry. -/
def volumeSpikeFlag (m : ℚ) (g : List MarketRecord) (r : MarketRecord) : Bool :=
  decide (Volume_Spike m (g.map (·.volume)) r.volume)

/-- Streamlit lines 62–95: the full filtered grouped analysis. -/
def analyze (records : List MarketRecord) (startDate endDate : ℤ) (k m : ℚ) :
    Summary :=
  let df := rangeFilter records startDate endDate
  let ks := groupKeys df
  { buzzing :=
      (ks.filter (fun i => (groupOf df i).any (priceAlertFlag k (groupOf df i)))).toFinset
    price_alert_records :=
      ks.flatMap (fun i => (groupOf df i).filter (priceAlertFlag k (groupOf df i)))
    volume_spike_records :=
      ks.flatMap (fun i => (groupOf df i).filter (volumeSpikeFlag m (groupOf df i))) }

/-- Streamlit line 97: `isin_map`. -/
def symbolLookup (df : List MarketRecord) (i : String) : Option String :=
  dictLookup (dedupFirst (df.map (fun r => (r.security_id, r.symbol)))) i

end Streamlit

/-- The five rows of the spec §8 volume scenario: one security, volumes
1000, 1100, 900, 1050, 5000 on five consecutive dates. -/
def volumeScenario : List MarketRecord :=
  [⟨"A", "AAA", 0, 100, 1000⟩, ⟨"A", "AAA", 1, 102, 1100⟩,
   ⟨"A", "AAA", 2, 98, 900⟩, ⟨"A", "AAA", 3, 101, 1050⟩,
   ⟨"A", "AAA", 4, 150, 5000⟩]

/-- The last row of `volumeScenario`, the visually large volume 5000. -/
def volumeScenarioLast : MarketRecord := ⟨"A", "AAA", 4, 150, 5000⟩

/-- Three rows of one security whose symbol changes A → B → A: the input on
which `isin_map` does not keep the last symbol encountered. -/
def symbolFlipRecords : List MarketRecord :=
  [⟨"I1", "A", 0, 1, 1⟩, ⟨"I1", "B", 1, 1, 1⟩, ⟨"I1", "A", 2, 1, 1⟩]

lemma mem_rangeFilter (records : List MarketRecord) (s e : ℤ) (r : MarketRecord) :
    r ∈ rangeFilter records s e ↔ r ∈ records ∧ s ≤ r.date ∧ r.date ≤ e := by
  simp [rangeFilter, List.mem_filter]

lemma mem_dedupFirstAux {α : Type} [DecidableEq α] (seen : List α) (l : List α)
    (a : α) : a ∈ dedupFirstAux seen l ↔ a ∈ l ∧ a ∉ seen := by
  induction l generalizing seen with
  | nil => simp [dedupFirstAux]
  | cons b l ih =>
    unfold dedupFirstAux
    by_cases hb : b ∈ seen
    · simp only [hb, if_true, ih, List.mem_cons]
      constructor
      · rintro ⟨h1, h2⟩; exact ⟨Or.inr h1, h2⟩
      · rintro ⟨h1 | h1, h2⟩
        · exact absurd hb (h1 ▸ h2)
        · exact ⟨h1, h2⟩
    · simp only [hb, if_false, List.mem_cons, ih, not_or]
      constructor
      · rintro (rfl | ⟨h1, h2, h3⟩)
        · exact ⟨Or.inl rfl, hb⟩
        · exact ⟨Or.inr h1, h3⟩
      · rintro ⟨rfl | h1, h2⟩
        · exact Or.inl rfl
        · by_cases hab : a = b
          · exact Or.inl hab
          · exact Or.inr ⟨h1, hab, h2⟩

lemma mem_dedupFirst {α : Type} [DecidableEq α] (l : List α) (a : α) :
    a ∈ dedupFirst l ↔ a ∈ l := by
  simp [dedupFirst, mem_dedupFirstAux]

lemma mem_sortByDate (l : List MarketRecord) (r : MarketRecord) :
    r ∈ sortByDate l ↔ r ∈ l := List.mem_mergeSort

lemma mem_groupOf (df : List MarketRecord) (i : String) (r : MarketRecord) :
    r ∈ groupOf df i ↔ r ∈ df ∧ r.security_id = i := by
  simp [groupOf, mem_sortByDate, List.mem_filter]

lemma mem_groupKeys (df : List MarketRecord) (i : String) :
    i ∈ groupKeys df ↔ ∃ r ∈ df, r.security_id = i := by
  simp [groupKeys, List.mem_mergeSort, mem_dedupFirst, List.mem_map]

lemma mean_le_of_forall_le (l : List ℚ) (hne : l ≠ []) (b : ℚ)
    (hb : ∀ x ∈ l, x ≤ b) : mean l ≤ b := by
  have hlen : 0 < (l.length : ℚ) := by
    have := List.length_pos.mpr hne
    exact_mod_cast this
  have hsum : l.sum ≤ (l.length : ℚ) * b := by
    have := List.sum_le_card_nsmul l b hb
    rwa [nsmul_eq_mul] at this
  unfold mean
  rw [div_le_iff₀ hlen]
  linarith

lemma le_mean_of_forall_le (l : List ℚ) (hne : l ≠ []) (a : ℚ)
    (ha : ∀ x ∈ l, a ≤ x) : a ≤ mean l := by
  have hlen : 0 < (l.length : ℚ) := by
    have := List.length_pos.mpr hne
    exact_mod_cast this
  have hsum : (l.length : ℚ) * a ≤ l.sum := by
    have := List.card_nsmul_le_sum l a ha
    rwa [nsmul_eq_mul] at this
  unfold mean
  rw [le_div_iff₀ hlen]
  linarith

/-- The mean of the spec (§4.2), written over real numbers exactly as the
spec words it: the arithmetic mean over the group. -/
noncomputable def specMean (l : List ℝ) : ℝ := l.sum / l.length

/-- The dispersion of the spec (§4.2), written over real numbers exactly as
the spec words it: sample standard deviation, the square root of the sum of
squared deviations from the mean divided by n − 1. -/
noncomputable def specDispersion (l : List ℝ) : ℝ :=
  Real.sqrt ((l.map (fun x => (x - specMean l) ^ 2)).sum / ((l.length : ℝ) - 1))

lemma cast_list_sum (l : List ℚ) :
    ((l.sum : ℚ) : ℝ) = (l.map (fun x : ℚ => (x : ℝ))).sum := by
  induction l with
  | nil => simp
  | cons a l ih =>
    rw [List.map_cons, List.sum_cons, List.sum_cons, Rat.cast_add, ih]

lemma mean_cast (l : List ℚ) :
    ((mean l : ℚ) : ℝ) = specMean (l.map (fun x : ℚ => (x : ℝ))) := by
  unfold mean specMean
  rw [Rat.cast_div, cast_list_sum]
  simp

lemma sampleVar_cast (l : List ℚ) :
    ((sampleVar l : ℚ) : ℝ) =
      ((l.map (fun x : ℚ => (x : ℝ))).map
        (fun x => (x - specMean (l.map (fun x : ℚ => (x : ℝ)))) ^ 2)).sum /
      (((l.map (fun x : ℚ => (x : ℝ))).length : ℝ) - 1) := by
  unfold sampleVar
  rw [Rat.cast_div, cast_list_sum, List.map_map, List.map_map]
  congr 1
  · refine congrArg List.sum (List.map_congr_left ?_)
    intro a _
    simp only [Function.comp_apply]
    push_cast [mean_cast]
    ring
  · push_cast
    simp

lemma dedupFirstAux_congr_seen {α : Type} [DecidableEq α] (l : List α)
    (s₁ s₂ : List α) (h : ∀ x ∈ l, x ∈ s₁ ↔ x ∈ s₂) :
    dedupFirstAux s₁ l = dedupFirstAux s₂ l := by
  induction l generalizing s₁ s₂ with
  | nil => rfl
  | cons a l ih =>
    unfold dedupFirstAux
    have ha := h a (List.mem_cons_self a l)
    by_cases h1 : a ∈ s₁
    · rw [if_pos h1, if_pos (ha.mp h1)]
      exact ih _ _ (fun x hx => h x (List.mem_cons_of_mem _ hx))
    · rw [if_neg h1, if_neg (fun hc => h1 (ha.mpr hc))]
      congr 1
      apply ih
      intro x hx
      have := h x (List.mem_cons_of_mem _ hx)
      simp only [List.mem_cons, this]

lemma dedupFirstAux_cons {α : Type} [DecidableEq α] (seen : List α) (a : α)
    (l : List α) :
    dedupFirstAux seen (a :: l) =
      if a ∈ seen then dedupFirstAux seen l
      else a :: dedupFirstAux (a :: seen) l := rfl

lemma dedupFirstAux_filter {α : Type} [DecidableEq α] (q : α → Bool)
    (seen : List α) (l : List α) :
    (dedupFirstAux seen l).filter q = dedupFirstAux seen (l.filter q) := by
  induction l generalizing seen with
  | nil => rfl
  | cons a l ih =>
    rw [List.filter_cons]
    by_cases hq : q a = true
    · rw [if_pos hq, dedupFirstAux_cons, dedupFirstAux_cons]
      by_cases hs : a ∈ seen
      · rw [if_pos hs, if_pos hs, ih seen]
      · rw [if_neg hs, if_neg hs, List.filter_cons, if_pos hq, ih (a :: seen)]
    · rw [if_neg hq, dedupFirstAux_cons]
      by_cases hs : a ∈ seen
      · rw [if_pos hs, ih seen]
      · rw [if_neg hs, List.filter_cons, if_neg hq, ih (a :: seen)]
        apply dedupFirstAux_congr_seen
        intro x hx
        have hxq : q x = true := List.of_mem_filter hx
        have hxa : x ≠ a := fun e => hq (e ▸ hxq)
        simp [List.mem_cons, hxa]

lemma dedupFirst_filter {α : Type} [DecidableEq α] (q : α → Bool) (l : List α) :
    (dedupFirst l).filter q = dedupFirst (l.filter q) :=
  dedupFirstAux_filter q [] l

lemma dedupFirstAux_map_inj {α β : Type} [DecidableEq α] [DecidableEq β]
    (f : α → β) (hf : Function.Injective f) (seen : List α) (l : List α) :
    dedupFirstAux (seen.map f) (l.map f) = (dedupFirstAux seen l).map f := by
  induction l generalizing seen with
  | nil => rfl
  | cons a l ih =>
    have hmem : f a ∈ seen.map f ↔ a ∈ seen := by
      constructor
      · intro h
        obtain ⟨x, hx, he⟩ := List.mem_map.mp h
        exact (hf he) ▸ hx
      · exact List.mem_map_of_mem f
    rw [List.map_cons]
    unfold dedupFirstAux
    by_cases hs : a ∈ seen
    · rw [if_pos (hmem.mpr hs), if_pos hs]
      exact ih seen
    · rw [if_neg (fun hc => hs (hmem.mp hc)), if_neg hs, List.map_cons]
      congr 1
      exact ih (a :: seen)

lemma dedupFirst_map_inj {α β : Type} [DecidableEq α] [DecidableEq β]
    (f : α → β) (hf : Function.Injective f) (l : List α) :
    dedupFirst (l.map f) = (dedupFirst l).map f :=
  dedupFirstAux_map_inj f hf [] l

lemma Price_Alert_iff_spec (k : ℚ) (l : List ℚ) (p : ℚ) (h : 2 ≤ l.length) :
    Price_Alert k l p ↔
      |(p : ℝ) - specMean (l.map (fun x : ℚ => (x : ℝ)))| >
        (k : ℝ) * specDispersion (l.map (fun x : ℚ => (x : ℝ))) := by
  unfold Price_Alert sampleVar? specDispersion
  simp only [h, if_true]
  rw [mean_cast, sampleVar_cast]

lemma Volume_Spike_iff_spec (m : ℚ) (vols : List ℚ) (v : ℚ) :
    Volume_Spike m vols v ↔
      (v : ℝ) > (m : ℝ) * specMean (vols.map (fun x : ℚ => (x : ℝ))) := by
  unfold Volume_Spike
  rw [show (m : ℝ) * specMean (vols.map (fun x : ℚ => (x : ℝ))) =
      ((m * mean vols : ℚ) : ℝ) by rw [Rat.cast_mul, mean_cast]]
  exact_mod_cast Iff.rfl

/-- C1: for every record of a security group with n ≥ 2 records, the
pipeline's `Price_Alert` flag holds exactly when |price − mean_price|
exceeds k times the sample (n − 1 divisor) standard deviation of the
group's prices, and the `Volume_Spike` flag holds exactly when volume
exceeds m times the arithmetic mean volume — the statistics taken in the
real-valued form the spec states them. -/
theorem C1_alert_flags_match_spec_formulas (k m : ℚ) (g : List MarketRecord)
    (r : MarketRecord) (_hr : r ∈ g) (hn : 2 ≤ g.length) :
    (priceAlertFlag k g r = true ↔
      |(r.price : ℝ) - specMean (g.map (fun x => (x.price : ℝ)))| >
        (k : ℝ) * specDispersion (g.map (fun x => (x.price : ℝ)))) ∧
    (volumeSpikeFlag m g r = true ↔
      (r.volume : ℝ) > (m : ℝ) * specMean (g.map (fun x => (x.volume : ℝ)))) := by
  constructor
  · rw [priceAlertFlag, decide_eq_true_eq]
    have hlen : 2 ≤ (g.map (·.price)).length := by simpa using hn
    rw [Price_Alert_iff_spec k (g.map (·.price)) r.price hlen, List.map_map]
    exact Iff.rfl
  · rw [volumeSpikeFlag, decide_eq_true_eq]
    rw [Volume_Spike_iff_spec, List.map_map]
    exact Iff.rfl

/-- Witness for C1 at the concrete five-row scenario group. -/
theorem C1_witness :
    volumeScenarioLast ∈ volumeScenario ∧ 2 ≤ volumeScenario.length ∧
    ((priceAlertFlag 2 volumeScenario volumeScenarioLast = true ↔
      |(volumeScenarioLast.price : ℝ) -
          specMean (volumeScenario.map (fun x => (x.price : ℝ)))| >
        (2 : ℝ) * specDispersion (volumeScenario.map (fun x => (x.price : ℝ)))) ∧
    (volumeSpikeFlag 3 volumeScenario volumeScenarioLast = true ↔
      (volumeScenarioLast.volume : ℝ) >
        (3 : ℝ) * specMean (volumeScenario.map (fun x => (x.volume : ℝ))))) :=
  ⟨by simp [volumeScenario, volumeScenarioLast], by simp [volumeScenario],
   C1_alert_flags_match_spec_formulas 2 3 volumeScenario volumeScenarioLast
     (by simp [volumeScenario, volumeScenarioLast]) (by simp [volumeScenario])⟩

/-- C2: a security id is in the buzzing set exactly when it is a group
key of the filtered records and its group has at least one record with the
`Price_Alert` flag set; in particular a group with volume spikes but no
price alert never enters the buzzing set. -/
theorem C2_buzzing_iff_some_price_alert (records : List MarketRecord)
    (s e : ℤ) (k m : ℚ) (i : String) :
    (i ∈ (analyze records s e k m).buzzing ↔
      i ∈ groupKeys (rangeFilter records s e) ∧
        ∃ r ∈ groupOf (rangeFilter records s e) i,
          priceAlertFlag k (groupOf (rangeFilter records s e) i) r = true) ∧
    ((∀ r ∈ groupOf (rangeFilter records s e) i,
        priceAlertFlag k (groupOf (rangeFilter records s e) i) r = false) →
      i ∉ (analyze records s e k m).buzzing) := by
  have hmain : i ∈ (analyze records s e k m).buzzing ↔
      i ∈ groupKeys (rangeFilter records s e) ∧
        ∃ r ∈ groupOf (rangeFilter records s e) i,
          priceAlertFlag k (groupOf (rangeFilter records s e) i) r = true := by
    simp [analyze, List.mem_toFinset, List.mem_filter, List.any_eq_true]
  refine ⟨hmain, fun hall hmem => ?_⟩
  obtain ⟨-, r, hr, hflag⟩ := hmain.mp hmem
  rw [hall r hr] at hflag
  exact Bool.false_ne_true hflag

/-- Witness for C2 on the concrete five-row scenario. -/
theorem C2_witness :
    ("A" ∈ (analyze volumeScenario 0 4 2 3).buzzing ↔
      "A" ∈ groupKeys (rangeFilter volumeScenario 0 4) ∧
        ∃ r ∈ groupOf (rangeFilter volumeScenario 0 4) "A",
          priceAlertFlag 2 (groupOf (rangeFilter volumeScenario 0 4) "A") r = true) :=
  (C2_buzzing_iff_some_price_alert volumeScenario 0 4 2 3 "A").1

/-- C3: in a single-record group the variance is NaN (embedded `none`)
and the `Price_Alert` flag of that record is false, whatever the threshold
k. -/
theorem C3_single_record_group_never_alerts (g : List MarketRecord)
    (hn : g.length = 1) (k : ℚ) (r : MarketRecord) (_hr : r ∈ g) :
    sampleVar? (g.map (·.price)) = none ∧ priceAlertFlag k g r = false := by
  have hlen : (g.map (·.price)).length = 1 := by simpa using hn
  have hvar : sampleVar? (g.map (·.price)) = none := by
    unfold sampleVar?
    rw [hlen]
    norm_num
  refine ⟨hvar, ?_⟩
  rw [priceAlertFlag, decide_eq_false_iff_not]
  unfold Price_Alert
  rw [hvar]
  exact not_false

/-- Witness for C3 on a one-row group with a negative threshold. -/
theorem C3_witness :
    ([(⟨"A", "AAA", 0, 100, 1000⟩ : MarketRecord)].length = 1) ∧
    (⟨"A", "AAA", 0, 100, 1000⟩ : MarketRecord) ∈
      [(⟨"A", "AAA", 0, 100, 1000⟩ : MarketRecord)] ∧
    (sampleVar? ([(⟨"A", "AAA", 0, 100, 1000⟩ : MarketRecord)].map (·.price)) = none ∧
      priceAlertFlag (-1) [(⟨"A", "AAA", 0, 100, 1000⟩ : MarketRecord)]
        ⟨"A", "AAA", 0, 100, 1000⟩ = false) :=
  ⟨rfl, by simp,
   C3_single_record_group_never_alerts _ (by simp) (-1) _ (by simp)⟩

/-- C4: the volume-spike comparison is `volume > m · mean_volume`
directly (never a division by `mean_volume`), so with mean volume 0 any
positive-volume record is flagged, for every multiplier m, and the
computation is total. -/
theorem C4_zero_mean_volume_flags_positive_volume (m : ℚ)
    (g : List MarketRecord) (r : MarketRecord)
    (h0 : mean (g.map (·.volume)) = 0) (hv : 0 < r.volume) :
    volumeSpikeFlag m g r = true := by
  rw [volumeSpikeFlag, decide_eq_true_eq]
  unfold Volume_Spike
  rw [h0, mul_zero]
  exact hv

/-- Witness for C4: two zero-volume rows and a positive-volume row. -/
theorem C4_witness :
    mean (([⟨"A", "AAA", 0, 1, 0⟩, ⟨"A", "AAA", 1, 1, 0⟩] :
        List MarketRecord).map (·.volume)) = 0 ∧
    (0 : ℚ) < 7 ∧
    volumeSpikeFlag 5 [⟨"A", "AAA", 0, 1, 0⟩, ⟨"A", "AAA", 1, 1, 0⟩]
      ⟨"A", "AAA", 2, 1, 7⟩ = true :=
  ⟨by norm_num [mean], by norm_num,
   C4_zero_mean_volume_flags_positive_volume 5 _ _ (by norm_num [mean]) (by norm_num)⟩

/-- C5: the range filter keeps exactly the records with
start ≤ date ≤ end (inclusive both ends), and when it keeps nothing the
(total, exception-free) analysis yields the empty summary: empty buzzing
set and empty alert/spike record lists. -/
theorem C5_range_filter_exact_and_empty_summary (records : List MarketRecord)
    (s e : ℤ) (k m : ℚ) :
    (∀ r : MarketRecord, r ∈ rangeFilter records s e ↔
      r ∈ records ∧ s ≤ r.date ∧ r.date ≤ e) ∧
    (rangeFilter records s e = [] →
      analyze records s e k m = ⟨∅, [], []⟩) := by
  refine ⟨fun r => mem_rangeFilter records s e r, fun h => ?_⟩
  simp [analyze, h, groupKeys, dedupFirst, dedupFirstAux]

/-- Witness for C5: a one-row record set filtered to an empty date range. -/
theorem C5_witness :
    rangeFilter [(⟨"A", "AAA", 5, 100, 1000⟩ : MarketRecord)] 0 (-1) = [] ∧
    analyze [(⟨"A", "AAA", 5, 100, 1000⟩ : MarketRecord)] 0 (-1) 2 3 =
      ⟨∅, [], []⟩ := by
  have h : rangeFilter [(⟨"A", "AAA", 5, 100, 1000⟩ : MarketRecord)] 0 (-1) = [] := by
    simp [rangeFilter]
  exact ⟨h,
    (C5_range_filter_exact_and_empty_summary
      [(⟨"A", "AAA", 5, 100, 1000⟩ : MarketRecord)] 0 (-1) 2 3).2 h⟩

/-- C6 fails on the code: a raw row whose ISIN (`security_id`) is
missing but whose Date, Price and Volume are present survives app.py's
`dropna(subset=['Date', 'Price', 'Volume'])` — it is not excluded, and
nothing anywhere reports a `MissingField` defect. -/
theorem C6_counterexample_missing_isin_not_excluded :
    missingIsinRaw.security_id = none ∧
    dropnaLoad [missingIsinRaw] = [missingIsinRaw] := ⟨rfl, rfl⟩

/-- C6 amended: app.py's load keeps a raw row exactly when its date,
price and volume are all present; rows missing one of those three are
silently dropped (no per-record defect is reported), and a missing
`security_id` is not grounds for exclusion. -/
theorem C6_amended_dropna_keeps_date_price_volume (raw : List RawRecord)
    (r : RawRecord) :
    r ∈ dropnaLoad raw ↔
      r ∈ raw ∧ r.date.isSome = true ∧ r.price.isSome = true ∧
        r.volume.isSome = true := by
  simp [dropnaLoad, List.mem_filter]
  tauto

/-- Witness for the amended C6 on a fully populated row. -/
theorem C6_amended_witness :
    completeRaw ∈ dropnaLoad [completeRaw] :=
  (C6_amended_dropna_keeps_date_price_volume [completeRaw] completeRaw).mpr
    ⟨List.mem_singleton.mpr rfl, rfl, rfl, rfl⟩

/-- C7 fails on the code: with one security whose symbols appear in
input order A, B, A, the last symbol encountered is A, yet `isin_map`
yields B (`drop_duplicates` keeps first occurrences of the pairs (I1, A),
(I1, B); the dict built from them keeps the later pair). -/
theorem C7_counterexample_not_last_encountered :
    (symbolFlipRecords.getLast?).map (fun r => r.symbol) = some "A" ∧
    symbolLookup symbolFlipRecords "I1" = some "B" ∧
    (some "B" : Option String) ≠ some "A" := ⟨rfl, by decide, by decide⟩

/-- C7 amended: for every filtered record set, `isin_map` maps a
security id to the last NEW symbol of that security in input order: the
last element of its symbol sequence after dropping re-occurrences of
already-seen symbols (first-occurrence deduplication). -/
theorem C7_amended_symbol_lookup_keeps_last_new_symbol
    (df : List MarketRecord) (i : String) :
    symbolLookup df i =
      (dedupFirst ((df.filter (fun r => r.security_id == i)).map
        (fun r => r.symbol))).getLast? := by
  unfold symbolLookup dictLookup
  rw [dedupFirst_filter, List.filter_map]
  have hc : ((fun p : String × String => p.1 == i) ∘
      (fun r : MarketRecord => (r.security_id, r.symbol))) =
      (fun r : MarketRecord => r.security_id == i) := rfl
  rw [hc]
  have hmapeq : (df.filter (fun r => r.security_id == i)).map
      (fun r : MarketRecord => (r.security_id, r.symbol)) =
      ((df.filter (fun r => r.security_id == i)).map (fun r => r.symbol)).map
        (fun s => (i, s)) := by
    rw [List.map_map]
    apply List.map_congr_left
    intro r hr
    have hid : r.security_id = i := by
      simpa using List.of_mem_filter hr
    simp [Function.comp, hid]
  rw [hmapeq,
    dedupFirst_map_inj (fun s => (i, s)) (fun a b h => congrArg Prod.snd h),
    List.map_map]
  simp

/-- Membership in the concatenated `volume_df`: a record is a reported
volume spike exactly when it lies in some group of the filtered frame and
its `Volume_Spike` flag is set there. -/
lemma mem_volume_spike_records (records : List MarketRecord) (s e : ℤ)
    (k m : ℚ) (r : MarketRecord) :
    r ∈ (analyze records s e k m).volume_spike_records ↔
      ∃ i ∈ groupKeys (rangeFilter records s e),
        r ∈ groupOf (rangeFilter records s e) i ∧
          volumeSpikeFlag m (groupOf (rangeFilter records s e) i) r = true := by
  simp [analyze, List.mem_flatMap, List.mem_filter]

/-- C8: on volumes 1000, 1100, 900, 1050, 5000 with multiplier 3 the
mean volume is exactly 1810; 5000 > 3·1810 = 5430 fails, so the last
record's `Volume_Spike` flag is false and the record never reaches the
reported volume-spike list — the threshold is measured against the mean
that includes the spike itself. -/
theorem C8_spike_compared_to_mean_including_itself :
    mean (volumeScenario.map (·.volume)) = 1810 ∧
    volumeSpikeFlag 3 (groupOf (rangeFilter volumeScenario 0 4) "A")
      volumeScenarioLast = false ∧
    volumeScenarioLast ∉ (analyze volumeScenario 0 4 2 3).volume_spike_records := by
  have hmean : mean (volumeScenario.map (·.volume)) = 1810 := by
    norm_num [mean, volumeScenario]
  have hnospike : ∀ r ∈ volumeScenario,
      volumeSpikeFlag 3 volumeScenario r = false := by
    intro r hr
    rw [volumeSpikeFlag, decide_eq_false_iff_not]
    unfold Volume_Spike
    rw [hmean]
    simp only [volumeScenario] at hr
    fin_cases hr <;> norm_num
  have hdf : rangeFilter volumeScenario 0 4 = volumeScenario := by
    simp [rangeFilter, volumeScenario]
  have hgroup : groupOf volumeScenario "A" = volumeScenario := by
    rw [groupOf]
    have hfil : volumeScenario.filter (fun r => r.security_id == "A") =
        volumeScenario := by
      simp [volumeScenario]
    rw [hfil]
    apply List.mergeSort_of_sorted
    decide
  have hlastmem : volumeScenarioLast ∈ volumeScenario := by
    simp [volumeScenario, volumeScenarioLast]
  refine ⟨hmean, ?_, ?_⟩
  · rw [hdf, hgroup]
    exact hnospike volumeScenarioLast hlastmem
  · intro hmem
    rw [mem_volume_spike_records] at hmem
    obtain ⟨i, hik, hig, hflag⟩ := hmem
    rw [hdf] at hig hflag
    have hi : i = "A" := by
      have h2 := ((mem_groupOf volumeScenario i volumeScenarioLast).mp hig).2
      simpa [volumeScenarioLast] using h2.symm
    rw [hi, hgroup] at hflag
    rw [hnospike volumeScenarioLast hlastmem] at hflag
    exact Bool.false_ne_true hflag

/-- C9: in a group with at least two records, the sample variance is
nonnegative (so the standard deviation is a well-defined nonnegative real)
and the mean price lies between the minimum and maximum price of the
group. -/
theorem C9_dispersion_nonneg_and_mean_within_bounds (g : List MarketRecord)
    (hn : 2 ≤ g.length) :
    0 ≤ sampleVar (g.map (·.price)) ∧
    0 ≤ Real.sqrt ((sampleVar (g.map (·.price)) : ℚ) : ℝ) ∧
    (∀ a, (g.map (·.price)).min? = some a → a ≤ mean (g.map (·.price))) ∧
    (∀ b, (g.map (·.price)).max? = some b → mean (g.map (·.price)) ≤ b) := by
  have hlen : 2 ≤ (g.map (·.price)).length := by simpa using hn
  have hne : g.map (·.price) ≠ [] := by
    intro hnil
    rw [hnil] at hlen
    simp at hlen
  haveI anti : Std.Antisymm (fun x1 x2 : ℚ => x1 ≤ x2) :=
    ⟨fun h1 h2 => le_antisymm h1 h2⟩
  refine ⟨sampleVar_nonneg _ hlen, Real.sqrt_nonneg _, ?_, ?_⟩
  · intro a ha
    have hmin := (List.min?_eq_some_iff (fun x => le_refl x)
      (fun x y => min_choice x y) (fun x y z => le_min_iff)).mp ha
    exact le_mean_of_forall_le _ hne a hmin.2
  · intro b hb
    have hmax := (List.max?_eq_some_iff (fun x => le_refl x)
      (fun x y => max_choice x y) (fun x y z => max_le_iff)).mp hb
    exact mean_le_of_forall_le _ hne b hmax.2

/-- Witness for C9 on the five-row scenario group. -/
theorem C9_witness :
    2 ≤ volumeScenario.length ∧
    (0 ≤ sampleVar (volumeScenario.map (·.price)) ∧
     0 ≤ Real.sqrt ((sampleVar (volumeScenario.map (·.price)) : ℚ) : ℝ) ∧
     (∀ a, (volumeScenario.map (·.price)).min? = some a →
        a ≤ mean (volumeScenario.map (·.price))) ∧
     (∀ b, (volumeScenario.map (·.price)).max? = some b →
        mean (volumeScenario.map (·.price)) ≤ b)) :=
  ⟨by simp [volumeScenario],
   C9_dispersion_nonneg_and_mean_within_bounds volumeScenario
     (by simp [volumeScenario])⟩

/-- C10: the group-analysis pipelines of the two source variants are
the same function: date filter, baselines, bands, both alert flags, and
the aggregated summary (buzzing set, price-alert rows, volume-spike rows)
as well as the symbol lookup agree on every input. -/
theorem C10_variants_produce_identical_results :
    (∀ records s e, Streamlit.rangeFilter records s e = rangeFilter records s e) ∧
    (∀ l, Streamlit.mean l = mean l) ∧
    (∀ l, Streamlit.sampleVar? l = sampleVar? l) ∧
    (∀ k prices, Streamlit.Upper_Band k prices = Upper_Band k prices) ∧
    (∀ k prices, Streamlit.Lower_Band k prices = Lower_Band k prices) ∧
    (∀ k prices p, Streamlit.Price_Alert k prices p ↔ Price_Alert k prices p) ∧
    (∀ m vols v, Streamlit.Volume_Spike m vols v ↔ Volume_Spike m vols v) ∧
    (∀ k g r, Streamlit.priceAlertFlag k g r = priceAlertFlag k g r) ∧
    (∀ m g r, Streamlit.volumeSpikeFlag m g r = volumeSpikeFlag m g r) ∧
    (∀ df i, Streamlit.groupOf df i = groupOf df i) ∧
    (∀ records s e k m, Streamlit.analyze records s e k m =
      analyze records s e k m) ∧
    (∀ df i, Streamlit.symbolLookup df i = symbolLookup df i) :=
  ⟨fun _ _ _ => rfl, fun _ => rfl, fun _ => rfl, fun _ _ => rfl,
   fun _ _ => rfl, fun _ _ _ => Iff.rfl, fun _ _ _ => Iff.rfl,
   fun _ _ _ => rfl, fun _ _ _ => rfl, fun _ _ => rfl,
   fun _ _ _ _ _ => rfl, fun _ _ => rfl⟩

end StockAnalyser
